import Mathlib

/-!
Shallow embedding of the traffic-agent sidecar composition logic of
`pkg/agentconfig/container.go`, together with the configuration data model
it consumes.  Go slices become `List`, Go maps become association lists
(used only for membership/lookup), Go strings become `String` with the
needed `strings` package functions embedded over `String.data`.  Types and
constants that the sampled sources reference but do not define are
modelled from the specification document and say so in their doc comment.
-/

/-- Transport protocol of an intercepted port (spec data model: enum TCP/UDP). -/
inductive Protocol where
  | TCP
  | UDP
deriving DecidableEq

/-- Modelled from the spec: the Intercept Descriptor type is referenced by
`PortUniqueIntercepts`/`AgentContainer` but not defined in the sampled
sources.  Spec data model: AgentPort (integer), ContainerPortName (string),
Protocol (enum). -/
structure Intercept where
  AgentPort : Nat
  ContainerPortName : String := ""
  Protocol : Protocol := .TCP
deriving DecidableEq

/-- Modelled from the spec: the Per-Container Policy type (`agentconfig.Container`)
is referenced but not defined in the sampled sources.  Spec data model:
Name, EnvPrefix, MountPoint, Intercepts. -/
structure Container where
  Name : String
  EnvPrefix : String := ""
  MountPoint : String := ""
  Intercepts : List Intercept := []
deriving DecidableEq

/-- Modelled from the spec: the Sidecar Policy type is referenced but not
defined in the sampled sources.  Spec data model: AgentImage, APIPort
(0 = disabled), ordered Containers. -/
structure Sidecar where
  AgentImage : String := ""
  APIPort : Nat := 0
  Containers : List Container := []
deriving DecidableEq

/-- Kubernetes `core.ObjectFieldSelector` (the two fields the code sets). -/
structure ObjectFieldSelector where
  apiVersion : String
  fieldPath : String
deriving DecidableEq

/-- Kubernetes `core.EnvVarSource` (only the field-ref form is used). -/
structure EnvVarSource where
  fieldRef : Option ObjectFieldSelector := none
deriving DecidableEq

/-- Kubernetes `core.EnvVar`. -/
structure EnvVar where
  name : String
  value : String := ""
  valueFrom : Option EnvVarSource := none
deriving DecidableEq

/-- Kubernetes `core.EnvFromSource`; the code rewrites only its `Prefix`
field, every other field is carried over untouched. -/
structure EnvFromSource where
  Prefix : String := ""
deriving DecidableEq

/-- Kubernetes `core.VolumeMount` (the fields the code reads or rewrites,
plus representative fields it must carry over unchanged). -/
structure VolumeMount where
  name : String
  mountPath : String
  readOnly : Bool := false
  subPath : String := ""
deriving DecidableEq

/-- Kubernetes `core.ContainerPort` (the three fields the code sets). -/
structure ContainerPort where
  name : String
  containerPort : Nat
  protocol : Protocol
deriving DecidableEq

/-- Kubernetes readiness probe, collapsed to the exec command the code sets. -/
structure Probe where
  execCommand : List String
deriving DecidableEq

/-- Kubernetes `core.Container` (application containers and the assembled
agent container share this record, as in the Kubernetes API). -/
structure CoreContainer where
  name : String
  image : String := ""
  args : List String := []
  ports : List ContainerPort := []
  env : List EnvVar := []
  envFrom : List EnvFromSource := []
  volumeMounts : List VolumeMount := []
  readinessProbe : Option Probe := none
deriving DecidableEq

/-- Kubernetes `core.Pod`, flattened to the two pieces the code reads:
`ObjectMeta.Annotations` (a map, modelled as an association list) and
`Spec.Containers`. -/
structure Pod where
  annotations : List (String × String) := []
  containers : List CoreContainer := []
deriving DecidableEq

/-- Embedding of Go `strings.HasPrefix` over the character data. -/
def hasPrefixStr (p s : String) : Bool :=
  p.data.isPrefixOf s.data

/-- Embedding of Go `strings.TrimPrefix`: drops the leading `p` once when
present, otherwise returns the string unchanged. -/
def trimPrefixStr (p s : String) : String :=
  if hasPrefixStr p s then ⟨s.data.drop p.data.length⟩ else s

/-- Embedding of Go `strings.Split(s, ",")` on the character data; note
that splitting the empty string yields one empty field, as in Go. -/
def splitCommaChars : List Char → List (List Char)
  | [] => [[]]
  | c :: cs =>
    match splitCommaChars cs with
    | [] => [[]]
    | g :: gs => if c = ',' then [] :: g :: gs else (c :: g) :: gs

/-- Embedding of Go `strings.Split(s, ",")`. -/
def splitComma (s : String) : List String :=
  (splitCommaChars s.data).map String.mk

/-- Embedding of Go `strings.TrimSpace`: drops whitespace from both ends. -/
def trimSpaceStr (s : String) : String :=
  ⟨((s.data.dropWhile Char.isWhitespace).reverse.dropWhile Char.isWhitespace).reverse⟩

/-- Modelled from the spec: fixed name of the assembled agent container
(a stable ABI constant referenced but not defined in the sampled sources). -/
def ContainerName : String := "traffic-agent"

/-- Modelled from the spec: fixed agent-env prefix prepended to re-exported
application variables; its value is fixed by the spec scenario where
variable PORT of the policy with EnvPrefix "WEB_" becomes _TEL_APP_WEB_PORT. -/
def EnvPrefixApp : String := "_TEL_APP_"

/-- Modelled from the spec: fixed name prefix of agent-owned variables
(a stable ABI constant referenced but not defined in the sampled sources). -/
def EnvPrefixAgent : String := "_TEL_AGENT_"

/-- Modelled from the spec: name of the API-port environment variable
(a stable ABI constant referenced but not defined in the sampled sources). -/
def EnvAPIPort : String := "TELEPRESENCE_API_PORT"

/-- Modelled from the spec: name of the pod-metadata projection volume. -/
def AnnotationVolumeName : String := "traffic-annotations"

/-- Modelled from the spec: fixed mount point of the pod-metadata volume. -/
def AnnotationMountPoint : String := "/tel_pod_info"

/-- Modelled from the spec: name of the generated-config volume. -/
def ConfigVolumeName : String := "traffic-config"

/-- Modelled from the spec: fixed mount point of the generated-config volume. -/
def ConfigMountPoint : String := "/etc/traffic-agent"

/-- Modelled from the spec: name of the scratch-export volume. -/
def ExportsVolumeName : String := "export-volume"

/-- Modelled from the spec: fixed mount point of the scratch-export volume. -/
def ExportsMountPoint : String := "/tel_app_exports"

/-- Pod annotation key holding the comma-separated ignore list of volume
mount names (literal in `getIgnoredVolumeMounts`). -/
def IgnoreVolumeMountsAnnoKey : String :=
  "telepresence.getambassador.io/inject-ignore-volume-mounts"

/-- Recursion of the first-occurrence-wins deduplication, carrying the set
of agent ports already emitted. -/
def portUniqAux (seen : List Nat) : List Intercept → List Intercept
  | [] => []
  | ic :: rest =>
    if seen.contains ic.AgentPort then portUniqAux seen rest
    else ic :: portUniqAux (ic.AgentPort :: seen) rest

/-- Modelled from the spec: `PortUniqueIntercepts` is called by
`AgentContainer` but not present in the sampled sources.  Spec contract:
"input is one Per-Container Policy's Intercepts; output is the subset
(order-preserving, first-occurrence-wins) such that each AgentPort appears
at most once." -/
def PortUniqueIntercepts (cc : Container) : List Intercept :=
  portUniqAux [] cc.Intercepts

/-- Inner loop of `EachContainer`: scan the pod containers in order, call
the visitor on the first one whose name equals the policy name, then stop. -/
def eachLoop {σ : Type} (f : σ → CoreContainer → Container → σ) (cc : Container)
    (s : σ) : List CoreContainer → σ
  | [] => s
  | app :: rest => if app.name == cc.Name then f s app cc else eachLoop f cc s rest

/-- Embedding of `EachContainer`: for every Per-Container Policy, find the
matching pod container by name and call the visitor once per match.  The
Go visitor mutates captured state; here the state is threaded explicitly. -/
def EachContainer {σ : Type} (pod : Pod) (config : Sidecar)
    (f : σ → CoreContainer → Container → σ) (s : σ) : σ :=
  config.Containers.foldl (fun s cc => eachLoop f cc s pod.containers) s

/-- Name rewriting applied to one application environment variable
(`e.Name = EnvPrefixApp + cc.EnvPrefix + e.Name` in `appendAppContainerEnv`). -/
def rewriteEnvVar (cc : Container) (e : EnvVar) : EnvVar :=
  { e with name := EnvPrefixApp ++ cc.EnvPrefix ++ e.name }

/-- Embedding of `appendAppContainerEnv`. -/
def appendAppContainerEnv (app : CoreContainer) (cc : Container)
    (es : List EnvVar) : List EnvVar :=
  app.env.foldl (fun es e => es ++ [rewriteEnvVar cc e]) es

/-- Rewriting applied to one env-from source (`appendAppContainerEnvFrom`). -/
def rewriteEnvFromVar (cc : Container) (e : EnvFromSource) : EnvFromSource :=
  { e with Prefix := EnvPrefixApp ++ cc.EnvPrefix ++ e.Prefix }

/-- Embedding of `appendAppContainerEnvFrom`. -/
def appendAppContainerEnvFrom (app : CoreContainer) (cc : Container)
    (es : List EnvFromSource) : List EnvFromSource :=
  app.envFrom.foldl (fun es e => es ++ [rewriteEnvFromVar cc e]) es

/-- Reserved credential path test (`isVrs` in `appendAppContainerVolumeMounts`). -/
def isVrs (s : String) : Bool :=
  hasPrefixStr "/var/run/secrets/" s

/-- Does the accumulated mount slice already contain a credential mount
(`vrsAdded` in `appendAppContainerVolumeMounts`)? -/
def vrsAdded (mounts : List VolumeMount) : Bool :=
  mounts.any fun m => isVrs m.mountPath

/-- Embedding of `getIgnoredVolumeMounts`: the annotation value (empty when
the key is absent, as a Go map read) split on commas, entries trimmed.  The
Go code stores the entries in a set; only membership is ever used, so a
list of the entries is an equivalent model. -/
def getIgnoredVolumeMounts (anns : List (String × String)) : List String :=
  (splitComma ((anns.lookup IgnoreVolumeMountsAnnoKey).getD "")).map trimSpaceStr

/-- Path relocation of a surviving non-credential mount
(`m.MountPath = cc.MountPoint + "/" + strings.TrimPrefix(m.MountPath, "/")`). -/
def rewriteMountPath (cc : Container) (m : VolumeMount) : VolumeMount :=
  { m with mountPath := cc.MountPoint ++ "/" ++ trimPrefixStr "/" m.mountPath }

/-- Body of the per-mount loop of `appendAppContainerVolumeMounts`. -/
def vmStep (cc : Container) (ign : List String)
    (mounts : List VolumeMount) (m : VolumeMount) : List VolumeMount :=
  if ign.contains m.name then mounts
  else if isVrs m.mountPath then
    if vrsAdded mounts then mounts else mounts ++ [m]
  else mounts ++ [rewriteMountPath cc m]

/-- Embedding of `appendAppContainerVolumeMounts`. -/
def appendAppContainerVolumeMounts (app : CoreContainer) (cc : Container)
    (mounts : List VolumeMount) (anns : List (String × String)) : List VolumeMount :=
  app.volumeMounts.foldl (vmStep cc (getIgnoredVolumeMounts anns)) mounts

/-- API-port environment variable appended when `config.APIPort > 0`. -/
def apiPortEnvVar (p : Nat) : EnvVar :=
  { name := EnvAPIPort, value := toString p }

/-- Fixed pod-IP field-reference variable appended by `AgentContainer`. -/
def podIPEnvVar : EnvVar :=
  { name := EnvPrefixAgent ++ "POD_IP",
    valueFrom := some { fieldRef := some { apiVersion := "v1", fieldPath := "status.podIP" } } }

/-- Fixed pod-name field-reference variable appended by `AgentContainer`. -/
def podNameEnvVar : EnvVar :=
  { name := EnvPrefixAgent ++ "NAME",
    valueFrom := some { fieldRef := some { apiVersion := "v1", fieldPath := "metadata.name" } } }

/-- Fixed pod-metadata volume mount of the agent container. -/
def annotationsVolumeMount : VolumeMount :=
  { name := AnnotationVolumeName, mountPath := AnnotationMountPoint }

/-- Fixed generated-config volume mount of the agent container. -/
def configVolumeMount : VolumeMount :=
  { name := ConfigVolumeName, mountPath := ConfigMountPoint }

/-- Fixed scratch-export volume mount of the agent container. -/
def exportsVolumeMount : VolumeMount :=
  { name := ExportsVolumeName, mountPath := ExportsMountPoint }

/-- Container-port record built from one deduplicated intercept. -/
def toContainerPort (ic : Intercept) : ContainerPort :=
  { name := ic.ContainerPortName, containerPort := ic.AgentPort, protocol := ic.Protocol }

/-- Embedding of `AgentContainer`.  Go `nil` result becomes `none`; the
`len(ports) == 0` guard becomes an equality test with the empty list. -/
def AgentContainer (pod : Pod) (config : Sidecar) : Option CoreContainer :=
  let ports := config.Containers.foldl
    (fun ps cc => (PortUniqueIntercepts cc).foldl (fun ps ic => ps ++ [toContainerPort ic]) ps) []
  if ports = [] then none else
  let evsEfs := EachContainer pod config
    (fun p app cc => (appendAppContainerEnv app cc p.1, appendAppContainerEnvFrom app cc p.2))
    (([] : List EnvVar), ([] : List EnvFromSource))
  let evs := if config.APIPort > 0 then evsEfs.1 ++ [apiPortEnvVar config.APIPort] else evsEfs.1
  let evs := evs ++ [podIPEnvVar, podNameEnvVar]
  let mounts := EachContainer pod config
    (fun ms app cc => appendAppContainerVolumeMounts app cc ms pod.annotations)
    ([] : List VolumeMount)
  let mounts := mounts ++ [annotationsVolumeMount, configVolumeMount, exportsVolumeMount]
  let efs := if evsEfs.2 = [] then [] else evsEfs.2
  some { name := ContainerName, image := config.AgentImage, args := ["agent"],
         ports := ports, env := evs, envFrom := efs, volumeMounts := mounts,
         readinessProbe := some { execCommand := ["/bin/stat", "/tmp/agent/ready"] } }

/-- Specification-side view of the matcher: the (application container,
policy) pairs visited by `EachContainer`, policy order, first name match. -/
def matchedPairs (pod : Pod) (config : Sidecar) : List (CoreContainer × Container) :=
  config.Containers.filterMap fun cc =>
    (pod.containers.find? (fun a => a.name == cc.Name)).map (fun a => (a, cc))

/-- The visit log of `EachContainer` with a purely accumulating visitor. -/
def visitedPairs (pod : Pod) (config : Sidecar) : List (CoreContainer × Container) :=
  EachContainer pod config (fun l app cc => l ++ [(app, cc)]) []

/-- Specification-side view of the assembled port list: concatenation of
the per-policy deduplicated intercepts. -/
def portsOf (config : Sidecar) : List ContainerPort :=
  config.Containers.flatMap fun cc => (PortUniqueIntercepts cc).map toContainerPort

/-- Application-derived portion of the assembled environment. -/
def appEnvOf (pod : Pod) (config : Sidecar) : List EnvVar :=
  (matchedPairs pod config).flatMap fun pr => pr.1.env.map (rewriteEnvVar pr.2)

/-- Specification-side view of the full assembled environment list. -/
def envOf (pod : Pod) (config : Sidecar) : List EnvVar :=
  appEnvOf pod config
    ++ (if config.APIPort > 0 then [apiPortEnvVar config.APIPort] else [])
    ++ [podIPEnvVar, podNameEnvVar]

/-- Application-derived portion of the assembled env-from list. -/
def appEnvFromOf (pod : Pod) (config : Sidecar) : List EnvFromSource :=
  (matchedPairs pod config).flatMap fun pr => pr.1.envFrom.map (rewriteEnvFromVar pr.2)

/-- Specification-side view of the assembled env-from list (nil when empty). -/
def efsOf (pod : Pod) (config : Sidecar) : List EnvFromSource :=
  if appEnvFromOf pod config = [] then [] else appEnvFromOf pod config

/-- Application-derived portion of the assembled volume-mount list. -/
def appMountsOf (pod : Pod) (config : Sidecar) : List VolumeMount :=
  (matchedPairs pod config).foldl
    (fun ms pr => appendAppContainerVolumeMounts pr.1 pr.2 ms pod.annotations) []

/-- Specification-side view of the full assembled volume-mount list. -/
def mountsOf (pod : Pod) (config : Sidecar) : List VolumeMount :=
  appMountsOf pod config ++ [annotationsVolumeMount, configVolumeMount, exportsVolumeMount]

/-- Stream of candidate credential mounts: every non-ignored mount under
the reserved path prefix, over the matched containers in match order. -/
def vrsStream (ign : List String) (prs : List (CoreContainer × Container)) : List VolumeMount :=
  prs.flatMap fun pr => pr.1.volumeMounts.filter (fun m => !ign.contains m.name && isVrs m.mountPath)

/-- Side condition for the credential-mount analysis: no relocated
non-credential path lands under the reserved prefix (which could happen,
for instance, when a policy MountPoint is itself /var/run/secrets). -/
def NoVrsRewrites (prs : List (CoreContainer × Container)) : Prop :=
  ∀ pr ∈ prs, ∀ m ∈ pr.1.volumeMounts, isVrs (rewriteMountPath pr.2 m).mountPath = false

/-! Generic fold lemmas relating the accumulator-style loops of the source
to specification-side list expressions. -/

theorem foldl_append_flat {α β : Type} (l : List α) (f : α → List β) (s : List β) :
    l.foldl (fun s x => s ++ f x) s = s ++ l.flatMap f := by
  induction l generalizing s with
  | nil => simp
  | cons x xs ih => simp [ih, List.flatMap_cons, List.append_assoc]

theorem foldl_append_one {α β : Type} (l : List α) (g : α → β) (s : List β) :
    l.foldl (fun s x => s ++ [g x]) s = s ++ l.map g := by
  induction l generalizing s with
  | nil => simp
  | cons x xs ih => simp [ih, List.append_assoc]

theorem foldl_snoc_id {α : Type} (l acc : List α) :
    l.foldl (fun s x => s ++ [x]) acc = acc ++ l := by
  induction l generalizing acc with
  | nil => simp
  | cons x xs ih => simp [ih]

theorem foldl_pair_split {α β γ : Type} (l : List γ) (f : α → γ → α) (g : β → γ → β)
    (a : α) (b : β) :
    l.foldl (fun p x => (f p.1 x, g p.2 x)) (a, b) = (l.foldl f a, l.foldl g b) := by
  induction l generalizing a b with
  | nil => rfl
  | cons x xs ih => simpa using ih (f a x) (g b x)

/-! Characterization of the matcher. -/

theorem eachLoop_eq_find {σ : Type} (f : σ → CoreContainer → Container → σ)
    (cc : Container) (s : σ) (l : List CoreContainer) :
    eachLoop f cc s l =
      match l.find? (fun a => a.name == cc.Name) with
      | some a => f s a cc
      | none => s := by
  induction l with
  | nil => rfl
  | cons a rest ih =>
    unfold eachLoop
    cases h : (a.name == cc.Name) with
    | true => simp [List.find?_cons_of_pos, h]
    | false => simp [List.find?_cons_of_neg, h, ih]

theorem EachContainer_eq_foldl {σ : Type} (pod : Pod) (config : Sidecar)
    (f : σ → CoreContainer → Container → σ) (s : σ) :
    EachContainer pod config f s =
      (matchedPairs pod config).foldl (fun s pr => f s pr.1 pr.2) s := by
  unfold EachContainer matchedPairs
  induction config.Containers generalizing s with
  | nil => rfl
  | cons cc rest ih =>
    simp only [List.foldl_cons]
    rw [eachLoop_eq_find]
    cases hf : pod.containers.find? (fun a => a.name == cc.Name) with
    | none => simp [hf, ih]
    | some a => simp [hf, ih]

theorem visitedPairs_eq (pod : Pod) (config : Sidecar) :
    visitedPairs pod config = matchedPairs pod config := by
  unfold visitedPairs
  rw [EachContainer_eq_foldl]
  simpa using foldl_snoc_id (matchedPairs pod config) []

/-! Characterization of the assembled fields. -/

theorem appendAppContainerEnv_eq (app : CoreContainer) (cc : Container) (es : List EnvVar) :
    appendAppContainerEnv app cc es = es ++ app.env.map (rewriteEnvVar cc) :=
  foldl_append_one _ _ _

theorem appendAppContainerEnvFrom_eq (app : CoreContainer) (cc : Container)
    (es : List EnvFromSource) :
    appendAppContainerEnvFrom app cc es = es ++ app.envFrom.map (rewriteEnvFromVar cc) :=
  foldl_append_one _ _ _

theorem agentPortsFold_eq (config : Sidecar) :
    config.Containers.foldl
      (fun ps cc => (PortUniqueIntercepts cc).foldl (fun ps ic => ps ++ [toContainerPort ic]) ps)
      [] = portsOf config := by
  unfold portsOf
  have h1 : ∀ (cc : Container) (ps : List ContainerPort),
      (PortUniqueIntercepts cc).foldl (fun ps ic => ps ++ [toContainerPort ic]) ps
        = ps ++ (PortUniqueIntercepts cc).map toContainerPort :=
    fun cc ps => foldl_append_one _ _ _
  calc config.Containers.foldl
        (fun ps cc => (PortUniqueIntercepts cc).foldl (fun ps ic => ps ++ [toContainerPort ic]) ps) []
      = config.Containers.foldl
        (fun ps cc => ps ++ (PortUniqueIntercepts cc).map toContainerPort) [] := by
        simp only [h1]
    _ = [] ++ config.Containers.flatMap (fun cc => (PortUniqueIntercepts cc).map toContainerPort) :=
        foldl_append_flat _ _ _
    _ = _ := by simp

theorem agentEnvFold_eq (pod : Pod) (config : Sidecar) :
    EachContainer pod config
      (fun p app cc => (appendAppContainerEnv app cc p.1, appendAppContainerEnvFrom app cc p.2))
      (([] : List EnvVar), ([] : List EnvFromSource))
      = (appEnvOf pod config, appEnvFromOf pod config) := by
  rw [EachContainer_eq_foldl]
  have hsplit := foldl_pair_split (matchedPairs pod config)
    (fun es pr => appendAppContainerEnv pr.1 pr.2 es)
    (fun fs pr => appendAppContainerEnvFrom pr.1 pr.2 fs) [] []
  refine hsplit.trans ?_
  have h1 : (matchedPairs pod config).foldl (fun es pr => appendAppContainerEnv pr.1 pr.2 es) []
      = appEnvOf pod config := by
    unfold appEnvOf
    have h : ∀ (es : List EnvVar) (pr : CoreContainer × Container),
        appendAppContainerEnv pr.1 pr.2 es = es ++ pr.1.env.map (rewriteEnvVar pr.2) :=
      fun es pr => appendAppContainerEnv_eq _ _ _
    calc (matchedPairs pod config).foldl (fun es pr => appendAppContainerEnv pr.1 pr.2 es) []
        = (matchedPairs pod config).foldl (fun es pr => es ++ pr.1.env.map (rewriteEnvVar pr.2)) [] := by
          simp only [h]
      _ = _ := by
          simpa using foldl_append_flat (matchedPairs pod config)
            (fun pr => pr.1.env.map (rewriteEnvVar pr.2)) []
  have h2 : (matchedPairs pod config).foldl (fun fs pr => appendAppContainerEnvFrom pr.1 pr.2 fs) []
      = appEnvFromOf pod config := by
    unfold appEnvFromOf
    have h : ∀ (fs : List EnvFromSource) (pr : CoreContainer × Container),
        appendAppContainerEnvFrom pr.1 pr.2 fs = fs ++ pr.1.envFrom.map (rewriteEnvFromVar pr.2) :=
      fun fs pr => appendAppContainerEnvFrom_eq _ _ _
    calc (matchedPairs pod config).foldl (fun fs pr => appendAppContainerEnvFrom pr.1 pr.2 fs) []
        = (matchedPairs pod config).foldl
            (fun fs pr => fs ++ pr.1.envFrom.map (rewriteEnvFromVar pr.2)) [] := by
          simp only [h]
      _ = _ := by
          simpa using foldl_append_flat (matchedPairs pod config)
            (fun pr => pr.1.envFrom.map (rewriteEnvFromVar pr.2)) []
  rw [h1, h2]

theorem agentMountsFold_eq (pod : Pod) (config : Sidecar) :
    EachContainer pod config
      (fun ms app cc => appendAppContainerVolumeMounts app cc ms pod.annotations)
      ([] : List VolumeMount) = appMountsOf pod config :=
  EachContainer_eq_foldl pod config _ _

/-- Structural characterization of `AgentContainer`: either no ports and no
container, or the fully assembled record with the specification-side field
expressions. -/
theorem agentContainer_eq (pod : Pod) (config : Sidecar) :
    AgentContainer pod config =
      if portsOf config = [] then none
      else some { name := ContainerName, image := config.AgentImage, args := ["agent"],
                  ports := portsOf config, env := envOf pod config, envFrom := efsOf pod config,
                  volumeMounts := mountsOf pod config,
                  readinessProbe := some { execCommand := ["/bin/stat", "/tmp/agent/ready"] } } := by
  unfold AgentContainer
  rw [agentPortsFold_eq]
  by_cases hp : portsOf config = []
  · simp [hp]
  · simp only [hp, if_neg, if_false]
    rw [agentEnvFold_eq, agentMountsFold_eq]
    unfold envOf efsOf mountsOf
    by_cases ha : config.APIPort > 0
    · simp [ha, List.append_assoc]
    · simp [ha, List.append_assoc]



/-! Properties of the port deduplication. -/

theorem portUniqAux_sublist (seen : List Nat) (l : List Intercept) :
    (portUniqAux seen l).Sublist l := by
  induction l generalizing seen with
  | nil => simp [portUniqAux]
  | cons ic rest ih =>
    by_cases hc : ic.AgentPort ∈ seen
    · simpa [portUniqAux, hc] using (ih seen).cons ic
    · simpa [portUniqAux, hc] using (ih (ic.AgentPort :: seen)).cons₂ ic

theorem portUniqAux_seen (seen : List Nat) (l : List Intercept) :
    ∀ ic ∈ portUniqAux seen l, ic.AgentPort ∉ seen := by
  induction l generalizing seen with
  | nil => simp [portUniqAux]
  | cons ic rest ih =>
    intro x hx
    by_cases hc : ic.AgentPort ∈ seen
    · simp [portUniqAux, hc] at hx
      exact ih seen x hx
    · simp [portUniqAux, hc] at hx
      rcases hx with hx | hx
      · rw [hx]; exact hc
      · have h2 := ih (ic.AgentPort :: seen) x hx
        simp only [List.mem_cons, not_or] at h2
        exact h2.2

theorem portUniqAux_pairwise (seen : List Nat) (l : List Intercept) :
    (portUniqAux seen l).Pairwise (fun a b => a.AgentPort ≠ b.AgentPort) := by
  induction l generalizing seen with
  | nil => simp [portUniqAux]
  | cons ic rest ih =>
    by_cases hc : ic.AgentPort ∈ seen
    · simpa [portUniqAux, hc] using ih seen
    · have hrec := ih (ic.AgentPort :: seen)
      have hhead : ∀ b ∈ portUniqAux (ic.AgentPort :: seen) rest, ic.AgentPort ≠ b.AgentPort := by
        intro b hb
        have h2 := portUniqAux_seen (ic.AgentPort :: seen) rest b hb
        simp only [List.mem_cons, not_or] at h2
        exact fun he => h2.1 he.symm
      simpa [portUniqAux, hc] using List.Pairwise.cons hhead hrec

theorem portUniqAux_first (seen : List Nat) (l : List Intercept) (p : Nat)
    (hs : p ∉ seen) :
    ∀ ic ∈ l, ic.AgentPort = p →
      ∃ icf, l.find? (fun x => x.AgentPort == p) = some icf ∧ icf ∈ portUniqAux seen l := by
  induction l generalizing seen with
  | nil => simp
  | cons ic₀ rest ih =>
    intro ic hic hp
    by_cases h0 : ic₀.AgentPort = p
    · refine ⟨ic₀, ?_, ?_⟩
      · rw [List.find?_cons_of_pos _ (by simp [h0])]
      · have hcon : ic₀.AgentPort ∉ seen := by rw [h0]; exact hs
        simp [portUniqAux, hcon]
    · rw [List.find?_cons_of_neg _ (by simp [h0])]
      have hic' : ic ∈ rest := by
        rcases List.mem_cons.mp hic with h | h
        · exact absurd (h ▸ hp) h0
        · exact h
      by_cases hcon : ic₀.AgentPort ∈ seen
      · obtain ⟨icf, hf, hm⟩ := ih seen hs ic hic' hp
        refine ⟨icf, hf, ?_⟩
        simpa [portUniqAux, hcon] using hm
      · have hs' : p ∉ ic₀.AgentPort :: seen := by
          simp only [List.mem_cons, not_or]
          exact ⟨fun he => h0 he.symm, hs⟩
        obtain ⟨icf, hf, hm⟩ := ih (ic₀.AgentPort :: seen) hs' ic hic' hp
        refine ⟨icf, hf, ?_⟩
        simp [portUniqAux, hcon]
        exact Or.inr hm

/-! Properties of the volume-mount composition. -/

theorem vmStep_sub (cc : Container) (ign : List String) (ms : List VolumeMount)
    (m : VolumeMount) : ∀ x ∈ ms, x ∈ vmStep cc ign ms m := by
  intro x hx
  unfold vmStep
  split
  · exact hx
  · split
    · split
      · exact hx
      · exact List.mem_append_left _ hx
    · exact List.mem_append_left _ hx

theorem vmFold_sub (cc : Container) (ign : List String) (l : List VolumeMount) :
    ∀ ms, ∀ x ∈ ms, x ∈ l.foldl (vmStep cc ign) ms := by
  induction l with
  | nil => intro ms x hx; exact hx
  | cons m rest ih =>
    intro ms x hx
    rw [List.foldl_cons]
    exact ih _ x (vmStep_sub cc ign ms m x hx)

theorem vmFold_rewrite_mem (cc : Container) (ign : List String) (l : List VolumeMount) :
    ∀ ms, ∀ m ∈ l, m.name ∉ ign → isVrs m.mountPath = false →
      rewriteMountPath cc m ∈ l.foldl (vmStep cc ign) ms := by
  induction l with
  | nil => simp
  | cons m₀ rest ih =>
    intro ms m hm hign hvrs
    rcases List.mem_cons.mp hm with h | h
    · subst h
      have hstep : vmStep cc ign ms m = ms ++ [rewriteMountPath cc m] := by
        unfold vmStep
        rw [if_neg (by simp [hign]), if_neg (by simp [hvrs])]
      rw [List.foldl_cons, hstep]
      exact vmFold_sub cc ign rest _ _
        (List.mem_append_right _ (List.mem_cons_self _ _))
    · rw [List.foldl_cons]
      exact ih _ m h hign hvrs

theorem vrsAdded_iff (ms : List VolumeMount) :
    vrsAdded ms = true ↔ ms.filter (fun m => isVrs m.mountPath) ≠ [] := by
  simp only [vrsAdded, List.any_eq_true, ne_eq, List.filter_eq_nil_iff]
  push_neg
  simp [and_comm]

theorem vmFold_filter_vrs (cc : Container) (ign : List String) (l : List VolumeMount)
    (hnr : ∀ m ∈ l, isVrs (rewriteMountPath cc m).mountPath = false) :
    ∀ ms, (l.foldl (vmStep cc ign) ms).filter (fun m => isVrs m.mountPath)
      = ms.filter (fun m => isVrs m.mountPath)
        ++ (if vrsAdded ms then []
            else (l.filter (fun m => !ign.contains m.name && isVrs m.mountPath)).take 1) := by
  induction l with
  | nil =>
    intro ms
    by_cases h : vrsAdded ms = true <;> simp [h]
  | cons m rest ih =>
    have hnrm : isVrs (rewriteMountPath cc m).mountPath = false :=
      hnr m (List.mem_cons_self _ _)
    have hnr2 : ∀ x ∈ rest, isVrs (rewriteMountPath cc x).mountPath = false :=
      fun x hx => hnr x (List.mem_cons_of_mem _ hx)
    intro ms
    rw [List.foldl_cons]
    by_cases hig : m.name ∈ ign
    · have hstep : vmStep cc ign ms m = ms := by
        unfold vmStep; rw [if_pos (by simp [hig])]
      rw [hstep, ih hnr2 ms]
      simp [List.filter_cons, hig]
    · by_cases hv : isVrs m.mountPath = true
      · by_cases ha : vrsAdded ms = true
        · have hstep : vmStep cc ign ms m = ms := by
            unfold vmStep
            rw [if_neg (by simp [hig]), if_pos hv, if_pos ha]
          rw [hstep, ih hnr2 ms]
          simp [ha]
        · have hstep : vmStep cc ign ms m = ms ++ [m] := by
            unfold vmStep
            rw [if_neg (by simp [hig]), if_pos hv, if_neg (by simp [ha])]
          rw [hstep, ih hnr2 (ms ++ [m])]
          have ha2 : vrsAdded (ms ++ [m]) = true := by simp [vrsAdded, hv]
          simp [ha, ha2, List.filter_append, List.filter_cons, hv, hig]
      · have hstep : vmStep cc ign ms m = ms ++ [rewriteMountPath cc m] := by
          unfold vmStep
          rw [if_neg (by simp [hig]), if_neg (by simp [hv])]
        rw [hstep, ih hnr2 (ms ++ [rewriteMountPath cc m])]
        have ha2 : vrsAdded (ms ++ [rewriteMountPath cc m]) = vrsAdded ms := by
          simp [vrsAdded, hnrm]
        simp [ha2, List.filter_append, List.filter_cons, hnrm, hv]

theorem mountsPairsFold_filter_vrs (anns : List (String × String))
    (prs : List (CoreContainer × Container)) (h : NoVrsRewrites prs) :
    ∀ ms, ((prs.foldl (fun ms pr => appendAppContainerVolumeMounts pr.1 pr.2 ms anns) ms).filter
        (fun m => isVrs m.mountPath))
      = ms.filter (fun m => isVrs m.mountPath)
        ++ (if vrsAdded ms then []
            else (vrsStream (getIgnoredVolumeMounts anns) prs).take 1) := by
  induction prs with
  | nil =>
    intro ms
    by_cases h2 : vrsAdded ms = true <;> simp [vrsStream, h2]
  | cons pr rest ih =>
    have hpr := h pr (List.mem_cons_self _ _)
    have hrest : NoVrsRewrites rest := fun q hq => h q (List.mem_cons_of_mem _ hq)
    intro ms
    have hin : (appendAppContainerVolumeMounts pr.1 pr.2 ms anns).filter (fun m => isVrs m.mountPath)
        = ms.filter (fun m => isVrs m.mountPath)
          ++ (if vrsAdded ms then []
              else (pr.1.volumeMounts.filter
                (fun m => !(getIgnoredVolumeMounts anns).contains m.name && isVrs m.mountPath)).take 1) :=
      vmFold_filter_vrs pr.2 (getIgnoredVolumeMounts anns) pr.1.volumeMounts hpr ms
    have hstream : vrsStream (getIgnoredVolumeMounts anns) (pr :: rest)
        = pr.1.volumeMounts.filter
            (fun m => !(getIgnoredVolumeMounts anns).contains m.name && isVrs m.mountPath)
          ++ vrsStream (getIgnoredVolumeMounts anns) rest := by
      unfold vrsStream
      rw [List.flatMap_cons]
    rw [List.foldl_cons, ih hrest (appendAppContainerVolumeMounts pr.1 pr.2 ms anns), hin, hstream]
    by_cases ha : vrsAdded ms = true
    · have hf : ms.filter (fun m => isVrs m.mountPath) ≠ [] := (vrsAdded_iff ms).mp ha
      have ha2 : vrsAdded (appendAppContainerVolumeMounts pr.1 pr.2 ms anns) = true := by
        rw [vrsAdded_iff, hin, if_pos ha]
        simpa using hf
      rw [if_pos ha, if_pos ha, if_pos ha2]
      simp
    · have hms : ms.filter (fun m => isVrs m.mountPath) = [] := by
        by_contra hne
        exact ha ((vrsAdded_iff ms).mpr hne)
      rw [if_neg ha, if_neg ha, hms]
      cases hs1 : pr.1.volumeMounts.filter
          (fun m => !(getIgnoredVolumeMounts anns).contains m.name && isVrs m.mountPath) with
      | nil =>
        have ha2 : ¬ vrsAdded (appendAppContainerVolumeMounts pr.1 pr.2 ms anns) = true := by
          rw [vrsAdded_iff, hin, if_neg ha, hms, hs1]
          simp
        rw [if_neg ha2]
        simp
      | cons x xs =>
        have ha2 : vrsAdded (appendAppContainerVolumeMounts pr.1 pr.2 ms anns) = true := by
          rw [vrsAdded_iff, hin, if_neg ha, hms, hs1]
          simp
        rw [if_pos ha2]
        simp

theorem vmFold_ignored (cc : Container) (ign : List String) (l : List VolumeMount) :
    ∀ ms, (l.filter (fun m => !ign.contains m.name)).foldl (vmStep cc ign) ms
      = l.foldl (vmStep cc ign) ms := by
  induction l with
  | nil => intro ms; rfl
  | cons m rest ih =>
    intro ms
    by_cases hig : m.name ∈ ign
    · have hcond : (!ign.contains m.name) = false := by simp [hig]
      have hstep : vmStep cc ign ms m = ms := by
        unfold vmStep; rw [if_pos (by simp [hig])]
      rw [List.filter_cons, hcond, if_neg Bool.false_ne_true, List.foldl_cons, hstep]
      exact ih ms
    · have hcond : (!ign.contains m.name) = true := by simp [hig]
      rw [List.filter_cons, hcond, if_pos rfl, List.foldl_cons, List.foldl_cons]
      exact ih (vmStep cc ign ms m)

theorem portsOf_eq_nil_iff (config : Sidecar) :
    portsOf config = [] ↔ config.Containers.flatMap (fun cc => PortUniqueIntercepts cc) = [] := by
  unfold portsOf
  simp [List.flatMap_eq_nil_iff]

instance (prs : List (CoreContainer × Container)) : Decidable (NoVrsRewrites prs) :=
  inferInstanceAs (Decidable (∀ pr ∈ prs, ∀ m ∈ pr.1.volumeMounts,
    isVrs (rewriteMountPath pr.2 m).mountPath = false))

/-! Claim theorems. -/

/-- Claim C1: for every Pod and Sidecar policy, `AgentContainer` returns no
container exactly when the concatenation of the per-policy deduplicated
intercept lists is empty; in particular an empty Containers sequence yields
no container for every Pod. -/
theorem claim1_agentContainer_none_iff (pod : Pod) (config : Sidecar) :
    (AgentContainer pod config = none
      ↔ config.Containers.flatMap (fun cc => PortUniqueIntercepts cc) = [])
    ∧ (config.Containers = [] → AgentContainer pod config = none) := by
  have hiff := portsOf_eq_nil_iff config
  constructor
  · rw [agentContainer_eq]
    by_cases hp : portsOf config = []
    · rw [if_pos hp]
      simp [hiff.mp hp]
    · rw [if_neg hp]
      constructor
      · intro h
        exact absurd h (by simp)
      · intro h
        exact absurd (hiff.mpr h) hp
  · intro hc
    have hp : portsOf config = [] := by
      unfold portsOf
      rw [hc]
      rfl
    rw [agentContainer_eq, if_pos hp]

/-- Claim C1 witness: the empty Sidecar policy yields no container. -/
theorem claim1_witness : AgentContainer {} {} = none :=
  (claim1_agentContainer_none_iff {} {}).2 rfl

/-- Claim C5: a same-named variable of two containers whose policies have
distinct EnvPrefix values is rewritten to two distinct names, because the
re-prefixing is injective in the prefix for a fixed variable name. -/
theorem claim5_envPrefix_injective (cc₁ cc₂ : Container) (e₁ e₂ : EnvVar)
    (hn : e₁.name = e₂.name) (hp : cc₁.EnvPrefix ≠ cc₂.EnvPrefix) :
    (rewriteEnvVar cc₁ e₁).name ≠ (rewriteEnvVar cc₂ e₂).name := by
  intro h
  apply hp
  simp only [rewriteEnvVar] at h
  rw [hn] at h
  have hd := congrArg String.data h
  simp only [String.data_append, List.append_assoc] at hd
  have h1 := List.append_cancel_left hd
  have h2 := List.append_cancel_right h1
  exact String.ext h2

/-- Claim C5 witness: prefixes A_ and B_ keep the shared name PORT apart. -/
theorem claim5_witness :
    ({ name := "PORT" } : EnvVar).name = ({ name := "PORT" } : EnvVar).name
    ∧ ({ Name := "a", EnvPrefix := "A_" } : Container).EnvPrefix
        ≠ ({ Name := "b", EnvPrefix := "B_" } : Container).EnvPrefix
    ∧ (rewriteEnvVar { Name := "a", EnvPrefix := "A_" } { name := "PORT" }).name
        ≠ (rewriteEnvVar { Name := "b", EnvPrefix := "B_" } { name := "PORT" }).name :=
  ⟨rfl, by decide,
   claim5_envPrefix_injective { Name := "a", EnvPrefix := "A_" } { Name := "b", EnvPrefix := "B_" }
     { name := "PORT" } { name := "PORT" } rfl (by decide)⟩

/-- Claim C7: the visit log of `EachContainer` is exactly: for every policy
in declaration order, the first pod container with equal name when one
exists and nothing otherwise — so the visitor runs at most once per policy,
in policy order, and only on an exact name match. -/
theorem claim7_eachContainer_visits (pod : Pod) (config : Sidecar) :
    visitedPairs pod config
      = config.Containers.filterMap (fun cc =>
          (pod.containers.find? (fun a => a.name == cc.Name)).map (fun a => (a, cc)))
    ∧ ∀ pr ∈ visitedPairs pod config,
        pr.1.name = pr.2.Name
        ∧ pod.containers.find? (fun a => a.name == pr.2.Name) = some pr.1 := by
  refine ⟨visitedPairs_eq pod config, ?_⟩
  intro pr hpr
  rw [visitedPairs_eq] at hpr
  unfold matchedPairs at hpr
  rcases List.mem_filterMap.mp hpr with ⟨cc, hcc, heq⟩
  cases hf : pod.containers.find? (fun a => a.name == cc.Name) with
  | none =>
    rw [hf] at heq
    simp at heq
  | some a =>
    rw [hf] at heq
    simp only [Option.map_some'] at heq
    rw [← Option.some_inj.mp heq]
    constructor
    · have := List.find?_some hf
      simpa using this
    · exact hf

/-- Claim C7 witness: one policy named web, two pod containers where the
first is named web; the visitor log holds exactly that first container. -/
theorem claim7_witness :
    (({ name := "web", image := "i1" } : CoreContainer),
        ({ Name := "web", EnvPrefix := "W_" } : Container))
      ∈ visitedPairs
          { containers := [{ name := "web", image := "i1" }, { name := "web", image := "i2" }] }
          { Containers := [{ Name := "web", EnvPrefix := "W_" }] }
    ∧ ({ name := "web", image := "i1" } : CoreContainer).name = "web"
    ∧ List.find? (fun a => a.name == "web")
        [({ name := "web", image := "i1" } : CoreContainer), { name := "web", image := "i2" }]
        = some { name := "web", image := "i1" } :=
  ⟨by decide, rfl,
   ((claim7_eachContainer_visits
      { containers := [{ name := "web", image := "i1" }, { name := "web", image := "i2" }] }
      { Containers := [{ Name := "web", EnvPrefix := "W_" }] }).2
      ({ name := "web", image := "i1" }, { Name := "web", EnvPrefix := "W_" })
      (by decide)).2⟩

/-- Claim C8: the deduplicated intercept list is a subsequence of the
policy's Intercepts, has pairwise distinct AgentPorts, keeps for each
declared port the first intercept carrying it, and is empty on empty input. -/
theorem claim8_portUnique_spec (cc : Container) :
    (PortUniqueIntercepts cc).Sublist cc.Intercepts
    ∧ (PortUniqueIntercepts cc).Pairwise (fun a b => a.AgentPort ≠ b.AgentPort)
    ∧ (∀ ic ∈ cc.Intercepts, ∃ icf,
        cc.Intercepts.find? (fun x => x.AgentPort == ic.AgentPort) = some icf
        ∧ icf ∈ PortUniqueIntercepts cc)
    ∧ (cc.Intercepts = [] → PortUniqueIntercepts cc = []) := by
  refine ⟨portUniqAux_sublist [] _, portUniqAux_pairwise [] _, ?_, ?_⟩
  · intro ic hic
    exact portUniqAux_first [] cc.Intercepts ic.AgentPort (by simp) ic hic rfl
  · intro h
    unfold PortUniqueIntercepts
    rw [h]
    rfl

/-- Claim C8 witness: a policy declaring port 9900 twice and 9901 once; the
first 9900 intercept is kept for the duplicated port. -/
theorem claim8_witness :
    (⟨9900, "b", .TCP⟩ : Intercept)
      ∈ ({ Name := "w", Intercepts := [⟨9900, "a", .TCP⟩, ⟨9900, "b", .TCP⟩, ⟨9901, "c", .UDP⟩] }
          : Container).Intercepts
    ∧ ∃ icf,
        ({ Name := "w", Intercepts := [⟨9900, "a", .TCP⟩, ⟨9900, "b", .TCP⟩, ⟨9901, "c", .UDP⟩] }
            : Container).Intercepts.find?
            (fun x => x.AgentPort == (⟨9900, "b", .TCP⟩ : Intercept).AgentPort) = some icf
        ∧ icf ∈ PortUniqueIntercepts
            { Name := "w", Intercepts := [⟨9900, "a", .TCP⟩, ⟨9900, "b", .TCP⟩, ⟨9901, "c", .UDP⟩] } :=
  ⟨by decide,
   (claim8_portUnique_spec
      { Name := "w", Intercepts := [⟨9900, "a", .TCP⟩, ⟨9900, "b", .TCP⟩, ⟨9901, "c", .UDP⟩] }).2.2.1
      ⟨9900, "b", .TCP⟩ (by decide)⟩

/-- Claim C9: a surviving non-credential mount of a matched container is
emitted with its target path relocated to the policy MountPoint followed by
a slash and the original path with a single leading slash stripped, all
other fields unchanged. -/
theorem claim9_mount_rewrite (app : CoreContainer) (cc : Container)
    (ms : List VolumeMount) (anns : List (String × String)) (m : VolumeMount)
    (hm : m ∈ app.volumeMounts)
    (hig : m.name ∉ getIgnoredVolumeMounts anns)
    (hv : isVrs m.mountPath = false) :
    rewriteMountPath cc m ∈ appendAppContainerVolumeMounts app cc ms anns
    ∧ (rewriteMountPath cc m).mountPath
        = cc.MountPoint ++ "/" ++ trimPrefixStr "/" m.mountPath
    ∧ (rewriteMountPath cc m).name = m.name
    ∧ (rewriteMountPath cc m).readOnly = m.readOnly
    ∧ (rewriteMountPath cc m).subPath = m.subPath := by
  refine ⟨?_, rfl, rfl, rfl, rfl⟩
  exact vmFold_rewrite_mem cc (getIgnoredVolumeMounts anns) app.volumeMounts ms m hm hig hv

/-- Claim C9 witness: mounting /data under MountPoint /app yields exactly
/app/data (no double slash), with the other fields untouched. -/
theorem claim9_witness :
    (⟨"v", "/data", true, "sub"⟩ : VolumeMount)
      ∈ ({ name := "web", volumeMounts := [⟨"v", "/data", true, "sub"⟩] } : CoreContainer).volumeMounts
    ∧ "v" ∉ getIgnoredVolumeMounts []
    ∧ isVrs "/data" = false
    ∧ rewriteMountPath { Name := "web", MountPoint := "/app" } ⟨"v", "/data", true, "sub"⟩
        ∈ appendAppContainerVolumeMounts
            { name := "web", volumeMounts := [⟨"v", "/data", true, "sub"⟩] }
            { Name := "web", MountPoint := "/app" } [] []
    ∧ rewriteMountPath { Name := "web", MountPoint := "/app" } ⟨"v", "/data", true, "sub"⟩
        = ⟨"v", "/app/data", true, "sub"⟩ :=
  ⟨by decide, by decide, by decide,
   (claim9_mount_rewrite { name := "web", volumeMounts := [⟨"v", "/data", true, "sub"⟩] }
      { Name := "web", MountPoint := "/app" } [] [] ⟨"v", "/data", true, "sub"⟩
      (by decide) (by decide) (by decide)).1,
   by decide⟩

/-- Pod of the C2 counterexample (no containers are needed: ports do not
depend on the Pod). -/
def c2Pod : Pod := {}

/-- Sidecar policy of the C2 counterexample: two Per-Container Policies
each declaring agent port 9900 under the port name x. -/
def c2Cfg : Sidecar :=
  { AgentImage := "img",
    Containers := [{ Name := "a", Intercepts := [⟨9900, "x", .TCP⟩] },
                   { Name := "b", Intercepts := [⟨9900, "x", .TCP⟩] }] }

/-- Claim C2 counterexample: deduplication is per policy only, so two
distinct Per-Container Policies declaring the same agent port produce a
returned container whose Ports list repeats both the port 9900 and the
name x — the returned container violates pairwise distinctness of
AgentPort values. -/
theorem claim2_counterexample :
    (AgentContainer c2Pod c2Cfg).map (fun c => c.ports.map (fun p => (p.containerPort, p.name)))
      = some [(9900, "x"), (9900, "x")]
    ∧ (AgentContainer c2Pod c2Cfg).map
        (fun c => decide (c.ports.Pairwise (fun a b => a.containerPort ≠ b.containerPort)))
      = some false
    ∧ (AgentContainer c2Pod c2Cfg).map
        (fun c => decide (c.ports.Pairwise (fun a b => a.name ≠ b.name)))
      = some false := by
  refine ⟨by decide, by decide, by decide⟩

/-- Claim C2 (amended): the Ports list of the returned container is the
concatenation of the per-policy deduplicated intercept ports, and within
the contribution of each single Per-Container Policy no two entries share
an AgentPort; neither AgentPort uniqueness across distinct policies nor
ContainerPortName uniqueness is enforced. -/
theorem claim2_amended_ports (pod : Pod) (config : Sidecar) :
    (AgentContainer pod config).map (fun c => c.ports)
      = (if portsOf config = [] then none else some (portsOf config))
    ∧ ∀ cc ∈ config.Containers,
        ((PortUniqueIntercepts cc).map (fun ic => ic.AgentPort)).Pairwise
          (fun a b => a ≠ b) := by
  constructor
  · rw [agentContainer_eq]
    by_cases hp : portsOf config = []
    · rw [if_pos hp, if_pos hp]
      rfl
    · rw [if_neg hp, if_neg hp]
      rfl
  · intro cc hcc
    exact (portUniqAux_pairwise [] cc.Intercepts).map _ (fun a b h => h)

/-- Claim C2 amended witness: the second policy of the counterexample
configuration has pairwise distinct ports within its own contribution. -/
theorem claim2_amended_witness :
    ({ Name := "b", Intercepts := [⟨9900, "x", .TCP⟩] } : Container) ∈ c2Cfg.Containers
    ∧ ((PortUniqueIntercepts { Name := "b", Intercepts := [⟨9900, "x", .TCP⟩] }).map
        (fun ic => ic.AgentPort)).Pairwise (fun a b => a ≠ b) :=
  ⟨by decide,
   (claim2_amended_ports c2Pod c2Cfg).2 { Name := "b", Intercepts := [⟨9900, "x", .TCP⟩] }
     (by decide)⟩

/-- Pod of the C3 counterexample: one container holding two mounts under
the reserved credential prefix. -/
def c3Pod : Pod :=
  { containers :=
      [{ name := "a",
         volumeMounts := [⟨"v1", "/var/run/secrets/x", false, ""⟩,
                          ⟨"v2", "/var/run/secrets/y", false, ""⟩] }] }

/-- Sidecar policy of the C3 counterexample: a single Per-Container Policy
matching that container. -/
def c3Cfg : Sidecar :=
  { AgentImage := "img",
    Containers := [{ Name := "a", MountPoint := "/tel_app_mounts/a",
                     Intercepts := [⟨9900, "p", .TCP⟩] }] }

/-- Claim C3 counterexample: with a SINGLE matched container mounting two
volumes under /var/run/secrets/, the second is skipped although no mount
under the prefix was copied for any previous container (there is none), so
"skipped exactly when already copied for a previous container" is false:
only v1 survives out of the two credential mounts supplied. -/
theorem claim3_counterexample :
    (AgentContainer c3Pod c3Cfg).map
        (fun c => c.volumeMounts.filter (fun m => isVrs m.mountPath))
      = some [⟨"v1", "/var/run/secrets/x", false, ""⟩]
    ∧ c3Cfg.Containers.length = 1
    ∧ (c3Pod.containers.flatMap (fun a => a.volumeMounts)).countP
        (fun m => isVrs m.mountPath) = 2 := by
  refine ⟨by decide, rfl, by decide⟩

/-- Claim C3 (amended): a credential mount is copied with its path
unmodified and is skipped exactly when a mount under the reserved prefix
was already copied earlier in the composition — whether for a previous
container or earlier in the same container.  Hence the credential mounts of
the returned container are exactly the first element, if any, of the stream
of matched non-ignored credential mounts in match order (so two matched
containers each mounting one credential volume still yield exactly one),
and that element is an original mount copied unmodified.  The side
condition excludes relocated non-credential paths landing under the
reserved prefix. -/
theorem claim3_amended_vrs (pod : Pod) (config : Sidecar)
    (hnr : NoVrsRewrites (matchedPairs pod config)) :
    (AgentContainer pod config).map
        (fun c => c.volumeMounts.filter (fun m => isVrs m.mountPath))
      = (if portsOf config = [] then none
         else some ((vrsStream (getIgnoredVolumeMounts pod.annotations)
            (matchedPairs pod config)).take 1))
    ∧ ∀ m ∈ (vrsStream (getIgnoredVolumeMounts pod.annotations)
            (matchedPairs pod config)).take 1,
        ∃ pr ∈ matchedPairs pod config, m ∈ pr.1.volumeMounts := by
  constructor
  · rw [agentContainer_eq]
    by_cases hp : portsOf config = []
    · rw [if_pos hp, if_pos hp]
      rfl
    · rw [if_neg hp, if_neg hp]
      have h1 := mountsPairsFold_filter_vrs pod.annotations (matchedPairs pod config) hnr []
      have hfix : ([annotationsVolumeMount, configVolumeMount, exportsVolumeMount]
          : List VolumeMount).filter (fun m => isVrs m.mountPath) = [] := by decide
      simp only [Option.map_some']
      congr 1
      show (mountsOf pod config).filter (fun m => isVrs m.mountPath) = _
      unfold mountsOf appMountsOf
      rw [List.filter_append, h1, hfix, if_neg (by decide)]
      simp
  · intro m hm
    have hm2 := List.mem_of_mem_take hm
    unfold vrsStream at hm2
    rcases List.mem_flatMap.mp hm2 with ⟨pr, hpr, hmm⟩
    exact ⟨pr, hpr, (List.mem_filter.mp hmm).1⟩

/-- Pod of the C3 amended witness: two containers, each mounting one volume
under /var/run/secrets/x. -/
def w3Pod : Pod :=
  { containers := [{ name := "a", volumeMounts := [⟨"va", "/var/run/secrets/x", false, ""⟩] },
                   { name := "b", volumeMounts := [⟨"vb", "/var/run/secrets/x", false, ""⟩] }] }

/-- Sidecar policy of the C3 amended witness, matching both containers. -/
def w3Cfg : Sidecar :=
  { AgentImage := "img",
    Containers := [{ Name := "a", MountPoint := "/tel_app_mounts/a",
                     Intercepts := [⟨9900, "p", .TCP⟩] },
                   { Name := "b", MountPoint := "/tel_app_mounts/b" }] }

/-- Claim C3 amended witness: for two matched containers each mounting one
credential volume, the assembled list keeps exactly the first one. -/
theorem claim3_amended_witness :
    NoVrsRewrites (matchedPairs w3Pod w3Cfg)
    ∧ (AgentContainer w3Pod w3Cfg).map
        (fun c => c.volumeMounts.filter (fun m => isVrs m.mountPath))
      = (if portsOf w3Cfg = [] then none
         else some ((vrsStream (getIgnoredVolumeMounts w3Pod.annotations)
            (matchedPairs w3Pod w3Cfg)).take 1))
    ∧ (vrsStream (getIgnoredVolumeMounts w3Pod.annotations) (matchedPairs w3Pod w3Cfg)).take 1
        = [⟨"va", "/var/run/secrets/x", false, ""⟩] :=
  ⟨by decide, (claim3_amended_vrs w3Pod w3Cfg (by decide)).1, by decide⟩

/-- Application container of the C4 counterexample: one mount whose name is
the empty string. -/
def c4App : CoreContainer :=
  { name := "a", volumeMounts := [⟨"", "/data", false, ""⟩] }

/-- Per-Container Policy of the C4 counterexample. -/
def c4Cc : Container :=
  { Name := "a", MountPoint := "/tel_app_mounts/a" }

/-- Claim C4 counterexample: with NO annotations at all, the ignore-set is
not empty — splitting the empty annotation value on commas yields one empty
entry, so the set is [""] — and a mount whose name is the empty string is
excluded even though the annotation is absent. -/
theorem claim4_counterexample :
    getIgnoredVolumeMounts [] = [""]
    ∧ appendAppContainerVolumeMounts c4App c4Cc [] [] = []
    ∧ c4App.volumeMounts ≠ [] := by
  refine ⟨by decide, by decide, by decide⟩

/-- Claim C4 (amended): a matched container's volume mount is excluded by
the ignore rule exactly when its name is among the trimmed entries of the
comma-separated annotation value; when the annotation is absent the value
read is the empty string, whose single trimmed entry is the empty string,
so the ignore-set is [""] and exactly the mounts with empty name are
excluded — every mount with a nonempty name survives the ignore rule. -/
theorem claim4_amended_ignores :
    (∀ anns : List (String × String), anns.lookup IgnoreVolumeMountsAnnoKey = none →
        ∀ n : String, n ∈ getIgnoredVolumeMounts anns ↔ n = "")
    ∧ ∀ (app : CoreContainer) (cc : Container) (ms : List VolumeMount)
        (anns : List (String × String)),
        appendAppContainerVolumeMounts app cc ms anns
          = appendAppContainerVolumeMounts
              { app with
                volumeMounts :=
                  app.volumeMounts.filter
                    (fun m => !(getIgnoredVolumeMounts anns).contains m.name) }
              cc ms anns := by
  constructor
  · intro anns h n
    unfold getIgnoredVolumeMounts
    rw [h]
    show n ∈ [""] ↔ n = ""
    simp
  · intro app cc ms anns
    exact (vmFold_ignored cc (getIgnoredVolumeMounts anns) app.volumeMounts ms).symm

/-- Claim C4 amended witness: with no annotations present, the nonempty
name web is not in the ignore-set. -/
theorem claim4_amended_witness :
    ([] : List (String × String)).lookup IgnoreVolumeMountsAnnoKey = none
    ∧ ("web" ∈ getIgnoredVolumeMounts [] ↔ "web" = "") :=
  ⟨rfl, claim4_amended_ignores.1 [] rfl "web"⟩

/-- Claim C6: in the container returned by `AgentContainer`, the Env list is
exactly: for every matched (container, policy) pair in match order, every
application variable copied with its name rewritten to
EnvPrefixApp ++ policy.EnvPrefix ++ original name and its value/reference
untouched, then the API-port variable exactly when APIPort > 0, then the
pod-IP field-reference variable, then the pod-name variable last. -/
theorem claim6_env_spec (pod : Pod) (config : Sidecar) :
    (AgentContainer pod config).map (fun c => c.env)
      = if portsOf config = [] then none
        else some ((matchedPairs pod config).flatMap
            (fun pr => pr.1.env.map (rewriteEnvVar pr.2))
          ++ (if config.APIPort > 0 then [apiPortEnvVar config.APIPort] else [])
          ++ [podIPEnvVar, podNameEnvVar]) := by
  rw [agentContainer_eq]
  by_cases hp : portsOf config = []
  · rw [if_pos hp, if_pos hp]
    rfl
  · rw [if_neg hp, if_neg hp]
    rfl

/-- Claim C10: the nil decision and the Ports list of `AgentContainer`
depend only on the Sidecar policy, never on the Pod; and a Pod containing
none of the policies' named containers still receives the agent container
carrying the full port list, only the fixed agent-owned environment
variables, and only the three fixed volume mounts. -/
theorem claim10_pod_independent (pod₁ pod₂ pod : Pod) (config : Sidecar) :
    ((AgentContainer pod₁ config).map (fun c => c.ports)
      = (AgentContainer pod₂ config).map (fun c => c.ports))
    ∧ ((AgentContainer pod₁ config).isSome = (AgentContainer pod₂ config).isSome)
    ∧ (portsOf config ≠ [] → (AgentContainer pod₁ config).isSome = true)
    ∧ ((∀ cc ∈ config.Containers, ∀ a ∈ pod.containers, a.name ≠ cc.Name) →
        (AgentContainer pod config).map (fun c => (c.ports, c.env, c.volumeMounts))
          = if portsOf config = [] then none
            else some (portsOf config,
                (if config.APIPort > 0 then [apiPortEnvVar config.APIPort] else [])
                  ++ [podIPEnvVar, podNameEnvVar],
                [annotationsVolumeMount, configVolumeMount, exportsVolumeMount])) := by
  refine ⟨?_, ?_, ?_, ?_⟩
  · rw [agentContainer_eq, agentContainer_eq]
    by_cases hp : portsOf config = []
    · rw [if_pos hp, if_pos hp]
    · rw [if_neg hp, if_neg hp]
      rfl
  · rw [agentContainer_eq, agentContainer_eq]
    by_cases hp : portsOf config = []
    · rw [if_pos hp, if_pos hp]
    · rw [if_neg hp, if_neg hp]
      rfl
  · intro hp
    rw [agentContainer_eq, if_neg hp]
    rfl
  · intro hnm
    have hmp : matchedPairs pod config = [] := by
      unfold matchedPairs
      rw [List.filterMap_eq_nil_iff]
      intro cc hcc
      have hfind : pod.containers.find? (fun a => a.name == cc.Name) = none := by
        rw [List.find?_eq_none]
        intro x hx
        simp [hnm cc hcc x hx]
      rw [hfind]
      rfl
    rw [agentContainer_eq]
    by_cases hp : portsOf config = []
    · rw [if_pos hp, if_pos hp]
      rfl
    · rw [if_neg hp, if_neg hp]
      simp only [Option.map_some']
      congr 1
      refine congrArg₂ _ rfl (congrArg₂ _ ?_ ?_)
      · show envOf pod config = _
        unfold envOf appEnvOf
        rw [hmp]
        simp
      · show mountsOf pod config = _
        unfold mountsOf appMountsOf
        rw [hmp]
        rfl

/-- Pod of the C10 witness: its only container matches none of the policy
names. -/
def w10Pod : Pod := { containers := [{ name := "z", env := [{ name := "E" }] }] }

/-- Sidecar policy of the C10 witness: one policy with one intercept. -/
def w10Cfg : Sidecar :=
  { AgentImage := "img", APIPort := 8081,
    Containers := [{ Name := "a", Intercepts := [⟨9900, "p", .TCP⟩] }] }

/-- Claim C10 witness: with one interceptable port and a pod lacking the
named container, the agent still appears, with the full port list, only the
fixed variables and only the three fixed mounts. -/
theorem claim10_witness :
    portsOf w10Cfg ≠ []
    ∧ (AgentContainer w10Pod w10Cfg).isSome = true
    ∧ (AgentContainer w10Pod w10Cfg).map (fun c => (c.ports, c.env, c.volumeMounts))
        = if portsOf w10Cfg = [] then none
          else some (portsOf w10Cfg,
              (if w10Cfg.APIPort > 0 then [apiPortEnvVar w10Cfg.APIPort] else [])
                ++ [podIPEnvVar, podNameEnvVar],
              [annotationsVolumeMount, configVolumeMount, exportsVolumeMount]) :=
  ⟨by decide,
   (claim10_pod_independent w10Pod w10Pod w10Pod w10Cfg).2.2.1 (by decide),
   (claim10_pod_independent w10Pod w10Pod w10Pod w10Cfg).2.2.2 (by decide)⟩
